import Mathlib

/-!
Verification of the volunteer-coordination dashboard core (`src/app.py`).

The Python program is shallowly embedded: pandas cells are `Option String`
(`none` models both Python `None` and a pandas `NaN`), rows are lists of
cells, a raw table is a list of rows, and every derivation of the pipeline
is a total Lean function translated from the corresponding Python function.
Python string builtins (`strip`, `lower`, `title`, `startswith`, membership,
`re` splitting) are modelled character-by-character over `String.data`;
`float(...)` is modelled over `ℚ` on the decimal-literal subset that the
coordinate data uses (sign, digits, one optional dot — no exponent forms).
-/

namespace Diary

/-- Python `str.strip()` (ASCII whitespace, which is what the data uses). -/
def pyStrip (s : String) : String :=
  ⟨((s.data.dropWhile Char.isWhitespace).reverse.dropWhile Char.isWhitespace).reverse⟩

/-- Python `str.lower()` (ASCII model, matching `Char.toLower`). -/
def pyLower (s : String) : String :=
  ⟨s.data.map Char.toLower⟩

/-- Python `str.startswith(p)`. -/
def pyStarts (s p : String) : Bool :=
  p.data.isPrefixOf s.data

/-- Helper for substring membership: does `sub` occur inside `cs`? -/
def listHasInfix (sub : List Char) : List Char → Bool
  | [] => sub.isEmpty
  | c :: rest => sub.isPrefixOf (c :: rest) || listHasInfix sub rest

/-- Python `sub in s` substring membership. -/
def pyContains (s sub : String) : Bool :=
  listHasInfix sub.data s.data

/-- Python `str(cell)` for a pandas cell: `NaN`/`None` print as `"nan"`. -/
def pyStr : Option String → String
  | none => "nan"
  | some s => s

/-- The digit characters of a string, in order: `re.sub(r"\D", "", s)`. -/
def digitsOf (s : String) : List Char :=
  s.data.filter Char.isDigit

/-- `normalize_phone` (src/app.py:161): strip non-digits; absent/`"nan"`/empty
digit string gives `none`; a leading `"0"` is rewritten to `"62"`; anything
else (including an existing `"62"`) passes through unchanged. -/
def normalize_phone : Option String → Option String
  | none => none
  | some s =>
    if s = "" ∨ pyLower s = "nan" then none
    else
      let ds := digitsOf s
      if ds = [] then none
      else if ds.headD ' ' = '0' then some ⟨'6' :: '2' :: ds.tail⟩
      else some ⟨ds⟩

/-- `clean_optional` (src/app.py:150): blank out absent cells and the
placeholder texts `"nan"`, `"none"`, `"-"` (case-insensitive, trimmed). -/
def clean_optional : Option String → String
  | none => ""
  | some v =>
    let s := pyStrip v
    if s = "" then ""
    else if pyLower s = "nan" ∨ pyLower s = "none" ∨ pyLower s = "-" then ""
    else s

/-- Association-list lookup modelling Python dict membership and access. -/
def lookupSeen : List (String × Nat) → String → Option Nat
  | [], _ => none
  | (k, b) :: rest, x => if x = k then some b else lookupSeen rest x

/-- Association-list in-place update modelling Python `seen[h] = v`. -/
def updateSeen : List (String × Nat) → String → Nat → List (String × Nat)
  | [], _, _ => []
  | (k, b) :: rest, x, v =>
      if k = x then (k, v) :: updateSeen rest x v else (k, b) :: updateSeen rest x v

/-- The duplicate-header pass of `load_raw_data` (src/app.py:70-80).  `seen`
is the Python dict, as an association list mapping a raw label to the number
of its occurrences emitted so far minus one. -/
def dedupAux : List String → List (String × Nat) → List String
  | [], _ => []
  | h :: rest, seen =>
    match lookupSeen seen h with
    | none => h :: dedupAux rest ((h, 0) :: seen)
    | some k =>
        (h ++ " (" ++ toString (k + 1) ++ ")") ::
          dedupAux rest (updateSeen seen h (k + 1))

/-- Header deduplication as the loader runs it, starting from an empty dict. -/
def dedupHeaders (headers : List String) : List String :=
  dedupAux headers []

/-- The deduplication rule as the spec words it: a cell keeps its label when no
earlier cell carries the same label, and otherwise appends a counter equal to
the number of earlier occurrences of that label. -/
def dedupSpecFrom (pfx : List String) : List String → List String
  | [] => []
  | h :: rest =>
      (if pfx.count h = 0 then h else h ++ " (" ++ toString (pfx.count h) ++ ")") ::
        dedupSpecFrom (pfx ++ [h]) rest

/-- Maximal runs of digit characters, in order: `re.findall(r"(\d+)", name)`. -/
def splitDigitRuns : List Char → List (List Char)
  | [] => []
  | c :: rest =>
    if c.isDigit then
      match rest, splitDigitRuns rest with
      | d :: _, run :: runs =>
          if d.isDigit then (c :: run) :: runs else [c] :: run :: runs
      | _, runs => [c] :: runs
    else splitDigitRuns rest

/-- Decimal value of a digit run, modelling Python `int`. -/
def digitsToNat (run : List Char) : Nat :=
  run.foldl (fun a c => a * 10 + (c.toNat - 48)) 0

/-- `int(nums[-1])` for `nums = re.findall(r"(\d+)", name)`: the value of the
last digit run of a name, absent when the name holds no digit. -/
def lastDigitRun (name : String) : Option Nat :=
  ((splitDigitRuns name.data).getLast?).map digitsToNat

/-- The numeric sort key `get_ordered_update_columns` (src/app.py:178-194)
assigns to a column: present iff the trimmed name case-insensitively starts
with `"update"` and holds at least one digit run. -/
def updateKey (col : String) : Option Nat :=
  let name := pyStrip col
  if pyStarts (pyLower name) "update" then lastDigitRun name else none

/-- The `found` list of `get_ordered_update_columns`: `(key, column)` pairs in
column order. -/
def foundPairs (cols : List String) : List (Nat × String) :=
  cols.filterMap (fun col => (updateKey col).map (fun n => (n, col)))

/-- `get_ordered_update_columns` (src/app.py:178-201): discover update columns
and stably sort them by key, descending when `latest_first` (Python
`list.sort` is stable in both directions, modelled by insertion sort). -/
def get_ordered_update_columns (cols : List String) (latest_first : Bool) :
    List String :=
  let found := foundPairs cols
  if found.isEmpty then []
  else
    (if latest_first then
        List.insertionSort (fun a b : Nat × String => b.1 ≤ a.1) found
      else
        List.insertionSort (fun a b : Nat × String => a.1 ≤ b.1) found).map
      Prod.snd

/-- Non-blank content test used by the update derivations
(src/app.py:211,221): `pd.notna(val) and str(val).strip()`.  Note this treats
a cell holding `"-"` as non-blank, unlike `clean_optional`. -/
def cellFilled (row : String → Option String) (col : String) : Bool :=
  match row col with
  | some v => pyStrip v ≠ ""
  | none => false

/-- The accumulator loop of `compute_update_level` (src/app.py:216-227). -/
def updateLevelFold (row : String → Option String) : Nat → List String → Nat
  | max_n, [] => max_n
  | max_n, col :: rest =>
      updateLevelFold row
        (if cellFilled row col then
          match lastDigitRun col with
          | some n => if n > max_n then n else max_n
          | none => max_n
        else max_n) rest

/-- `compute_update_level`: highest numeric index among the given columns with
non-blank content, starting from 0. -/
def compute_update_level (row : String → Option String) (cols : List String) :
    Nat :=
  updateLevelFold row 0 cols

/-- The indices the claim's maximum ranges over: last digit run of each
column whose cell is non-blank. -/
def filledIndices (row : String → Option String) (cols : List String) :
    List Nat :=
  (cols.filter (cellFilled row)).filterMap lastDigitRun

/-- Collapse each run of whitespace to a single space:
`re.sub(r"\s+", " ", s)`. -/
def collapseWS : List Char → List Char
  | [] => []
  | c :: rest =>
    if c.isWhitespace then
      match rest with
      | d :: _ =>
          if d.isWhitespace then collapseWS rest else ' ' :: collapseWS rest
      | [] => [' ']
    else c :: collapseWS rest

/-- Python `str.title()` (ASCII model): an alphabetic character is uppercased
after a non-alphabetic one and lowercased otherwise. -/
def pyTitleAux : List Char → Bool → List Char
  | [], _ => []
  | c :: rest, prevAlpha =>
      (if c.isAlpha then (if prevAlpha then c.toLower else c.toUpper) else c) ::
        pyTitleAux rest c.isAlpha

/-- Python `s.title()`. -/
def pyTitle (s : String) : String :=
  ⟨pyTitleAux s.data false⟩

/-- `clean_region_name` (src/app.py:37-51): trim, collapse whitespace, fix the
two special administrative names, otherwise title-case. -/
def clean_region_name (v : Option String) : String :=
  match v with
  | none => ""
  | some val =>
    let s := pyStrip val
    if s = "" then ""
    else
      let s2 : String := ⟨collapseWS s.data⟩
      if pyLower s2 = "dki jakarta" then "DKI Jakarta"
      else if pyLower s2 = "di yogyakarta" then "DI Yogyakarta"
      else pyTitle s2

/-- Cell of a row under a named column: first matching column index (column
names are unique after deduplication in every real load). -/
def cellAt (cols : List String) (cells : List (Option String))
    (name : String) : Option String :=
  match cols.findIdx? (· == name) with
  | some i => (cells.drop i).headD none
  | none => none

/-- Header test of the loader (src/app.py:59): the first cell of the row,
as `str(...)`, trimmed, equals the literal `"No"` (case-sensitive). -/
def isHeaderRow (row : List (Option String)) : Bool :=
  pyStrip (pyStr (row.headD none)) == "No"

/-- Index of the first header row, scanning top-to-bottom
(`header_row_candidates[0]`, src/app.py:59-66). -/
def findHeaderRow : List (List (Option String)) → Option Nat
  | [] => none
  | r :: rs =>
      if isHeaderRow r then some 0 else (findHeaderRow rs).map (· + 1)

/-- The loader's output: deduplicated column names plus data rows, each
carrying its original absolute row index (`__row_index`, src/app.py:94). -/
structure LoadedTable where
  cols : List String
  rows : List (Nat × List (Option String))
deriving DecidableEq

/-- Apply `clean_region_name` down a named column (src/app.py:89-91). -/
def cleanRegionCol (cols : List String) (name : String)
    (rows : List (Nat × List (Option String))) :
    List (Nat × List (Option String)) :=
  match cols.findIdx? (· == name) with
  | some i =>
      rows.map (fun r =>
        (r.1, r.2.set i (some (clean_region_name ((r.2.drop i).headD none)))))
  | none => rows

/-- The raw cells of row `hr`, stringified (`raw.iloc[header_row].tolist()`
with `str(h)` applied, src/app.py:68-74). -/
def headerCellsAt (t : List (List (Option String))) (hr : Nat) : List String :=
  ((t.drop hr).headD []).map pyStr

/-- The data rows below the header (src/app.py:82-94): rows keep their
absolute index, all-absent rows are dropped (`dropna(how="all")`), rows whose
`"No"` cell trims to `"0"` are dropped when a `"No"` column exists, and the
two region columns are cleaned. -/
def dataRowsFrom (t : List (List (Option String))) (hr : Nat)
    (cols : List String) : List (Nat × List (Option String)) :=
  let rows0 := ((t.drop (hr + 1)).enum).map (fun p => (hr + 1 + p.1, p.2))
  let rows1 := rows0.filter (fun r => r.2.any Option.isSome)
  let rows2 :=
    if cols.contains "No" then
      rows1.filter (fun r => pyStrip (pyStr (cellAt cols r.2 "No")) != "0")
    else rows1
  cleanRegionCol cols "Kabupaten" (cleanRegionCol cols "Provinsi" rows2)

/-- `load_raw_data` (src/app.py:55-96) over an in-memory raw table: find the
header row (fatal failure — `none` — when absent), deduplicate its cells as
column names, and keep the processed data rows below it. -/
def load_raw_data (t : List (List (Option String))) : Option LoadedTable :=
  match findHeaderRow t with
  | none => none
  | some hr =>
      some ⟨dedupHeaders (headerCellsAt t hr),
            dataRowsFrom t hr (dedupHeaders (headerCellsAt t hr))⟩

/-- The separator class of the coordinate splitter: `[ ,;]`. -/
def isSep (c : Char) : Bool :=
  c = ' ' || c = ',' || c = ';'

/-- Split at every single separator character (fields between adjacent
separators come out empty). -/
def splitSingle : List Char → List (List Char)
  | [] => [[]]
  | c :: rest =>
    if isSep c then [] :: splitSingle rest
    else
      match splitSingle rest with
      | f :: fs => (c :: f) :: fs
      | [] => [[c]]

/-- Drop empty fields except a trailing one (the `+` of the separator class
collapses runs, but `re.split` keeps boundary empties). -/
def dropInteriorEmpties : List (List Char) → List (List Char)
  | [] => []
  | [f] => [f]
  | f :: g :: rest =>
      if f.isEmpty then dropInteriorEmpties (g :: rest)
      else f :: dropInteriorEmpties (g :: rest)

/-- `re.split(r"[ ,;]+", s)` over the characters of `s`: single-character
split, then collapse of interior empties; the leading field is kept even when
empty, as `re.split` does for a separator at position 0. -/
def splitSepRuns (cs : List Char) : List (List Char) :=
  match splitSingle cs with
  | [] => []
  | f :: fs => f :: dropInteriorEmpties fs

/-- Python `float(str)` on the decimal-literal subset the coordinate data
uses: optional sign, integer digits, optional dot and fraction digits (no
exponent, infinity or nan forms, which never occur in coordinate cells).
Returns `none` where `float(...)` raises `ValueError`. -/
def pyFloat? (s : String) : Option ℚ :=
  let cs := (pyStrip s).data
  let signed : Bool × List Char :=
    match cs with
    | '+' :: t => (false, t)
    | '-' :: t => (true, t)
    | t => (false, t)
  let intPart := signed.2.takeWhile Char.isDigit
  let rest := signed.2.dropWhile Char.isDigit
  let val? : Option ℚ :=
    match rest with
    | [] => if intPart.isEmpty then none else some (digitsToNat intPart : ℚ)
    | '.' :: rest2 =>
      let frPart := rest2.takeWhile Char.isDigit
      let rest3 := rest2.dropWhile Char.isDigit
      if rest3.isEmpty && !(intPart.isEmpty && frPart.isEmpty) then
        some ((digitsToNat intPart : ℚ)
          + (digitsToNat frPart : ℚ) / ((10 : ℚ) ^ frPart.length))
      else none
    | _ => none
  val?.map (fun v => if signed.1 then -v else v)

/-- `tok.replace(",", ".")` over characters. -/
def replaceCommaDot (cs : List Char) : List Char :=
  cs.map (fun c => if c = ',' then '.' else c)

/-- `parse_ll` (src/app.py:121-136): split the combined cell on runs of
space/comma/semicolon and parse the first two tokens; any failure gives an
absent pair for that record only. -/
def parse_ll (v : Option String) : Option ℚ × Option ℚ :=
  match v with
  | none => (none, none)
  | some v0 =>
    let s := pyStrip v0
    if s = "" then (none, none)
    else
      match splitSepRuns s.data with
      | p0 :: p1 :: _ =>
        match pyFloat? ⟨replaceCommaDot p0⟩, pyFloat? ⟨replaceCommaDot p1⟩ with
        | some la, some lo => (some la, some lo)
        | _, _ => (none, none)
      | _ => (none, none)

/-- Distinct latitude column discovery (src/app.py:100-106): the loop keeps
the LAST matching column. -/
def findLatCol (cols : List String) : Option String :=
  cols.foldl (fun acc c =>
    if pyLower c = "lat" ∨ pyLower c = "latitude" then some c else acc) none

/-- Distinct longitude column discovery (src/app.py:100-106). -/
def findLonCol (cols : List String) : Option String :=
  cols.foldl (fun acc c =>
    if pyLower c = "long" ∨ pyLower c = "longitude" ∨ pyLower c = "lng"
    then some c else acc) none

/-- Combined-column fallback discovery (src/app.py:113-118): the FIRST column
whose lowercased name contains both `"lat"` and `"long"`. -/
def findComboCol (cols : List String) : Option String :=
  cols.find? (fun c =>
    pyContains (pyLower c) "lat" && pyContains (pyLower c) "long")

/-- `pd.to_numeric(..., errors="coerce")` on one cell. -/
def toNumeric (v : Option String) : Option ℚ :=
  match v with
  | none => none
  | some s => pyFloat? s

/-- `add_lat_lon_columns` (src/app.py:99-146) as the per-record derived
`(lat, lon)` pairs; `none` when no coordinate column exists at all. -/
def add_lat_lon (cols : List String) (rows : List (List (Option String))) :
    Option (List (Option ℚ × Option ℚ)) :=
  match findLatCol cols, findLonCol cols with
  | some la, some lo =>
      some (rows.map (fun r =>
        (toNumeric (cellAt cols r la), toNumeric (cellAt cols r lo))))
  | _, _ =>
    match findComboCol cols with
    | some cb => some (rows.map (fun r => parse_ll (cellAt cols r cb)))
    | none => none

/-- The UTF-8 bytes of a string, as naturals. -/
def utf8Bytes (s : String) : List Nat :=
  s.data.flatMap (fun c => (String.utf8EncodeChar c).map UInt8.toNat)

/-- Bytes `urllib.parse.quote` leaves unescaped with its default
`safe="/"`: ASCII letters, digits, `_`, `.`, `-`, `~` and `/`. -/
def quoteSafeByte (b : Nat) : Bool :=
  (65 ≤ b && b ≤ 90) || (97 ≤ b && b ≤ 122) || (48 ≤ b && b ≤ 57)
    || b = 95 || b = 46 || b = 45 || b = 126 || b = 47

/-- Uppercase hexadecimal digit. -/
def hexDigitChar (n : Nat) : Char :=
  if n < 10 then Char.ofNat (48 + n) else Char.ofNat (55 + n)

/-- `urllib.parse.quote(s)`: percent-encode the UTF-8 bytes, `%XX`
uppercase. -/
def quote (s : String) : String :=
  ⟨(utf8Bytes s).flatMap (fun b =>
    if quoteSafeByte b then [Char.ofNat b]
    else ['%', hexDigitChar (b / 16), hexDigitChar (b % 16)])⟩

/-- The per-card WhatsApp link (src/app.py:606-609): rendered only when the
coordinator phone normalizes to a truthy string, targeting that number with
the percent-encoded message as payload; otherwise no link is rendered. -/
def card_wa_link (wa_raw : Option String) (msg : String) : Option String :=
  match normalize_phone wa_raw with
  | some norm =>
      if norm ≠ "" then
        some ("https://wa.me/" ++ norm ++ "?text=" ++ quote msg)
      else none
  | none => none

/-- The combined-message WhatsApp link (src/app.py:702): always numberless. -/
def wa_link_multi (combined_body : String) : String :=
  "https://wa.me/?text=" ++ quote combined_body

/-- Python string `<` over characters: code-point lexicographic. -/
def charListLT : List Char → List Char → Bool
  | [], [] => false
  | [], _ :: _ => true
  | _ :: _, [] => false
  | a :: as, b :: bs =>
      if a.toNat < b.toNat then true
      else if b.toNat < a.toNat then false
      else charListLT as bs

/-- Python string `<=`: the negation of the reverse strict comparison. -/
def pyStrLE (x y : String) : Bool :=
  !(charListLT y.data x.data)

/-- The raw `"No"` cell of a loaded row. -/
def noCell (cols : List String) (r : Nat × List (Option String)) :
    Option String :=
  cellAt cols r.2 "No"

/-- Comparator of `sort_values("No", ascending=False)` (src/app.py:496):
larger `"No"` strings first (Python code-point lexicographic order), absent
values last. -/
def noDescLE (cols : List String) (a b : Nat × List (Option String)) : Bool :=
  match noCell cols a, noCell cols b with
  | some x, some y => pyStrLE y x
  | some _, none => true
  | none, some _ => false
  | none, none => true

/-- Comparator of `sort_values("__row_index", ascending=False)`
(src/app.py:498). -/
def rowIdxDescLE (a b : Nat × List (Option String)) : Bool :=
  decide (b.1 ≤ a.1)

/-- The `"Entry terbaru"` sort branch of `main` (src/app.py:493-498): sort by
the `"No"` column descending when a `"No"` column exists, else by `row_index`
descending.  (pandas' default sort is not stable; the model uses a stable
sort — every property proved below is independent of tie order.) -/
def sortNewestEntry (t : LoadedTable) : List (Nat × List (Option String)) :=
  if t.cols.contains "No" then
    List.insertionSort (fun a b => noDescLE t.cols a b = true) t.rows
  else
    List.insertionSort (fun a b => rowIdxDescLE a b = true) t.rows

/-- The field-coordinator name column (src/app.py:318). -/
def korlapNameCol : String := "Nama Relawan Koordinator Lapangan"

/-- The central-coordinator name column (src/app.py:323). -/
def pusatNameCol : String := "Nama Relawan Koordinator Pusat - Posisi Standby"

/-- src/app.py:318-321: the korlap WA column is the column immediately BEFORE
the korlap name column, when that name column exists and is not first. -/
def wa_korlap_col (cols : List String) : Option String :=
  match cols.findIdx? (· == korlapNameCol) with
  | some idx => if 1 ≤ idx then some (cols.getD (idx - 1) "") else none
  | none => none

/-- src/app.py:323-327: the pusat WA column is the column immediately AFTER
the pusat name column, when that name column exists and is not last. -/
def wa_pusat_col (cols : List String) : Option String :=
  match cols.findIdx? (· == pusatNameCol) with
  | some idx =>
      if idx + 1 < cols.length then some (cols.getD (idx + 1) "") else none
  | none => none

/-- `row.get(wa_col, "") if wa_col else ""` (src/app.py:359,366,551,558):
Python truthiness treats both a missing column and an empty column name as
"no phone", yielding the empty string. -/
def waRawFrom (row : String → Option String) (waCol : Option String) :
    Option String :=
  match waCol with
  | some c => if c ≠ "" then row c else some ""
  | none => some ""

/-- `compute_last_update` (src/app.py:204-213): the first (highest-index)
column of the descending list with non-blank content, as `"<name>: <value>"`;
empty when none. -/
def compute_last_update (row : String → Option String)
    (update_cols_desc : List String) : String :=
  match update_cols_desc.find? (cellFilled row) with
  | some col => col ++ ": " ++ (row col).getD ""
  | none => ""

/-- Python `x or "-"`. -/
def orDash (s : String) : String :=
  if s = "" then "-" else s

/-- `build_whatsapp_body_for_row` (src/app.py:230-277): the per-record
message body, with the timeline section enumerating the update columns whose
`clean_optional`-cleaned cell is non-blank. -/
def build_whatsapp_body_for_row (row : String → Option String)
    (update_cols_desc : List String) (waKorlapCol : Option String) : String :=
  let prov := clean_optional (row "Provinsi")
  let kab := clean_optional (row "Kabupaten")
  let posko := clean_optional
    (row "Posko & Penjelasan Jumlah Orang, Berdasarkan Jenis Kelamin dan Usia")
  let kebutuhan := clean_optional (row "List Kebutuhan Mendesak")
  let dukungan := clean_optional
    (row "Dukungan yang bisa di offer ke sesama jaringan")
  let gmap := clean_optional (row "Link Google Map")
  let foto := clean_optional (row "Link Foto / Sosmed / Google Drive")
  let korlap_name := clean_optional (row korlapNameCol)
  let wa_pretty := clean_optional (waRawFrom row waKorlapCol)
  let parts0 : List String :=
    ["*[Koordinasi Bantuan – " ++ orDash prov ++ " / " ++ orDash kab ++ "]*",
     "",
     "*Posko*",
     orDash posko,
     "",
     "*PIC Lapangan*: " ++ orDash korlap_name
       ++ (if wa_pretty ≠ "" then " (" ++ wa_pretty ++ ")" else ""),
     ""]
  let timeline := update_cols_desc.filterMap (fun col =>
    let v := clean_optional (row col)
    if v ≠ "" then some ("- *" ++ col ++ "*: " ++ v) else none)
  let parts1 :=
    if timeline.isEmpty then ["_Belum ada update tertulis._"]
    else "*🕒 Timeline Update*" :: timeline
  let parts2 :=
    (if kebutuhan ≠ "" then ["", "*List Kebutuhan Mendesak*:", kebutuhan]
      else [])
    ++ (if dukungan ≠ "" then ["", "*Dukungan dari jaringan*:", dukungan]
      else [])
    ++ (if gmap ≠ "" then ["", "📍 Map: " ++ gmap] else [])
    ++ (if foto ≠ "" then ["", "🖼 Dokumentasi: " ++ foto] else [])
  pyStrip (String.intercalate "\n" (parts0 ++ parts1 ++ parts2))

/-- A record whose only update cell holds the placeholder `"-"`. -/
def dashRow : String → Option String :=
  fun c => if c = "Update 1" then some "-" else none

/-- A digit character is fixed by `Char.toLower`. -/
theorem toLower_of_isDigit (c : Char) (h : c.isDigit = true) : c.toLower = c := by
  simp only [Char.isDigit, ge_iff_le, Bool.and_eq_true, decide_eq_true_eq] at h
  obtain ⟨h1, h2⟩ := h
  rw [UInt32.le_def, BitVec.le_def] at h1 h2
  have e48 : ((48 : UInt32)).toBitVec.toNat = 48 := rfl
  have e57 : ((57 : UInt32)).toBitVec.toNat = 57 := rfl
  rw [e48] at h1
  rw [e57] at h2
  simp only [Char.toLower, Char.toNat]
  rw [if_neg]
  intro hc
  obtain ⟨hc1, hc2⟩ := hc
  simp only [UInt32.toNat] at hc1 hc2
  omega

/-- A string whose Python-lowercasing is `"nan"` contains no digit. -/
theorem digitsOf_eq_nil_of_lower_nan (s : String) (h : pyLower s = "nan") :
    digitsOf s = [] := by
  have hdata : s.data.map Char.toLower = ['n', 'a', 'n'] := by
    have := congrArg String.data h
    simpa [pyLower] using this
  by_contra hne
  have hex : ∃ c ∈ s.data, c.isDigit = true := by
    rcases List.exists_mem_of_ne_nil _ hne with ⟨c, hc⟩
    exact ⟨c, (List.mem_filter.mp hc).1, (List.mem_filter.mp hc).2⟩
  rcases hex with ⟨c, hmem, hdig⟩
  have hlow : c.toLower ∈ (['n', 'a', 'n'] : List Char) := by
    rw [← hdata]
    exact List.mem_map_of_mem _ hmem
  rw [toLower_of_isDigit c hdig] at hlow
  have hcna : c = 'n' ∨ c = 'a' ∨ c = 'n' := by
    simpa using hlow
  rcases hcna with rfl | rfl | rfl <;> simp at hdig

/-- Every character of `digitsOf s` is a digit. -/
theorem digitsOf_all_isDigit (s : String) : (digitsOf s).all Char.isDigit = true := by
  simp only [digitsOf, List.all_eq_true]
  intro c hc
  exact (List.mem_filter.mp hc).2

/-- An empty string has no digits. -/
theorem digitsOf_empty : digitsOf "" = [] := rfl

/-- C3: `normalize_phone` strips every non-digit character; on a digit string
starting with `"0"` followed by at least one more digit the result starts with
`"62"` and has one more digit than the input; inputs with no digits at all
(including an absent input) give an absent result, never an error (the function
is total); and a digit string with any other leading pattern, `"62"` included,
is returned unchanged. -/
theorem normalize_phone_correct :
    (normalize_phone none = none)
    ∧ (∀ s, digitsOf s = [] → normalize_phone (some s) = none)
    ∧ (∀ s c cs, digitsOf s = '0' :: c :: cs →
        ∃ r, normalize_phone (some s) = some r
          ∧ r.data.all Char.isDigit = true
          ∧ pyStarts r "62" = true
          ∧ r.data.length = (digitsOf s).length + 1)
    ∧ (∀ s, digitsOf s ≠ [] → (digitsOf s).head? ≠ some '0' →
        normalize_phone (some s) = some ⟨digitsOf s⟩) := by
  refine ⟨rfl, ?_, ?_, ?_⟩
  · intro s h
    simp only [normalize_phone]
    split
    · rfl
    · simp [h]
  · intro s c cs h
    have hne : ¬ (s = "" ∨ pyLower s = "nan") := by
      rintro (rfl | hnan)
      · rw [digitsOf_empty] at h
        exact List.noConfusion h
      · rw [digitsOf_eq_nil_of_lower_nan s hnan] at h
        exact List.noConfusion h
    have hall : ((('6' : Char) :: '2' :: c :: cs).all Char.isDigit) = true := by
      have h0 := digitsOf_all_isDigit s
      rw [h] at h0
      simp only [List.all_cons, Bool.and_eq_true] at h0 ⊢
      exact ⟨rfl, rfl, h0.2⟩
    refine ⟨⟨'6' :: '2' :: c :: cs⟩, ?_, hall, rfl, ?_⟩
    · simp only [normalize_phone, if_neg hne, h]
      simp
    · rw [h]
      simp
  · intro s hne h0
    obtain ⟨d, tail, hd⟩ : ∃ d tail, digitsOf s = d :: tail := by
      cases hcase : digitsOf s with
      | nil => exact absurd hcase hne
      | cons d tail => exact ⟨d, tail, rfl⟩
    have hd0 : d ≠ '0' := by
      intro h
      rw [hd, h] at h0
      exact h0 rfl
    have hcond : ¬ (s = "" ∨ pyLower s = "nan") := by
      rintro (rfl | hnan)
      · rw [digitsOf_empty] at hd
        exact List.noConfusion hd
      · rw [digitsOf_eq_nil_of_lower_nan s hnan] at hd
        exact List.noConfusion hd
    simp only [normalize_phone, if_neg hcond, hd]
    simp [hd0]

/-- Witness for C3 at concrete inputs: `"0812"` has digit string `0812`, so
the leading-zero clause applies, and a digit-free input gives an absent
result. -/
theorem normalize_phone_correct_witness :
    (∃ r, normalize_phone (some "0812") = some r
      ∧ r.data.all Char.isDigit = true
      ∧ pyStarts r "62" = true
      ∧ r.data.length = (digitsOf "0812").length + 1)
    ∧ normalize_phone (some "no digits here") = none :=
  ⟨normalize_phone_correct.2.2.1 "0812" '8' ['1', '2'] (by decide),
   normalize_phone_correct.2.1 "no digits here" (by decide)⟩

/-- Looking up after the value-update that `dedupAux` performs: the updated
key reads back the new value (when present before), other keys are untouched. -/
theorem lookup_update (seen : List (String × Nat)) (h : String) (v : Nat) (x : String) :
    lookupSeen (updateSeen seen h v) x =
      if x = h then (lookupSeen seen h).map (fun _ => v) else lookupSeen seen x := by
  induction seen with
  | nil => simp [updateSeen, lookupSeen]
  | cons p rest ih =>
    obtain ⟨k, b⟩ := p
    simp only [updateSeen]
    by_cases hk : k = h
    · subst hk
      rw [if_pos rfl]
      simp only [lookupSeen]
      by_cases hx : x = k
      · subst hx
        simp
      · simp only [if_neg hx, ih]
    · rw [if_neg hk]
      simp only [lookupSeen]
      by_cases hx : x = k
      · subst hx
        have hxh : ¬ x = h := hk
        simp [hxh]
      · by_cases hxh : x = h
        · subst hxh
          simp [hx, ih, fun hh : x = k => hx hh]
        · simp [hx, hxh, ih]

/-- `dedupAux` agrees with the spec-side rule, given that `seen` correctly
counts the labels of an already-processed prefix. -/
theorem dedupAux_eq_spec :
    ∀ (rest pfx : List String) (seen : List (String × Nat)),
      (∀ x, lookupSeen seen x =
        if pfx.count x = 0 then none else some (pfx.count x - 1)) →
      dedupAux rest seen = dedupSpecFrom pfx rest
  | [], _, _, _ => rfl
  | h :: rest, pfx, seen, hinv => by
    simp only [dedupAux, dedupSpecFrom]
    have hl := hinv h
    by_cases hc : pfx.count h = 0
    · rw [if_pos hc] at hl
      simp only [hl, if_pos hc]
      congr 1
      apply dedupAux_eq_spec rest (pfx ++ [h])
      intro x
      by_cases hx : x = h
      · subst hx
        simp [lookupSeen, List.count_append, hc]
      · simp [lookupSeen, hx, List.count_append, hinv x]
    · rw [if_neg hc] at hl
      have hsucc : pfx.count h - 1 + 1 = pfx.count h :=
        Nat.succ_pred_eq_of_pos (Nat.pos_of_ne_zero hc)
      simp only [hl, if_neg hc, hsucc]
      congr 1
      apply dedupAux_eq_spec rest (pfx ++ [h])
      intro x
      rw [lookup_update]
      by_cases hx : x = h
      · subst hx
        rw [if_pos rfl, hl]
        simp [List.count_append, hsucc]
      · rw [if_neg hx, hinv x]
        simp [List.count_append, hx]

/-- C2 (amended): the deduplication pass keeps the first occurrence of each
raw label unchanged and appends a per-label counter suffix to its later
repeats, exactly as the spec-side rule `dedupSpecFrom` words it; in
particular `["No","Name","Phone","Phone"]` becomes
`["No","Name","Phone","Phone (1)"]`.  (Pairwise uniqueness of the resulting
names does NOT hold in general — see the counterexample.) -/
theorem dedupHeaders_follows_suffix_rule :
    (∀ hs, dedupHeaders hs = dedupSpecFrom [] hs)
    ∧ dedupHeaders ["No", "Name", "Phone", "Phone"]
        = ["No", "Name", "Phone", "Phone (1)"] := by
  constructor
  · intro hs
    apply dedupAux_eq_spec hs [] []
    intro x
    simp [lookupSeen]
  · decide

/-- C2 counterexample: a raw label that coincides with a suffixed form of an
earlier repeated label still collides, so the deduplicated column names are
not pairwise unique. -/
theorem dedupHeaders_not_unique :
    dedupHeaders ["Phone", "Phone", "Phone (1)"]
      = ["Phone", "Phone (1)", "Phone (1)"]
    ∧ ¬ (dedupHeaders ["Phone", "Phone", "Phone (1)"]).Nodup := by
  constructor
  · decide
  · decide

/-- C5 counterexample: `"Update 1"` and `"Update 1 (1)"` share the numeric key
`1` (the last digit run of each name), and a stable sort keeps ties in
original order for both directions, so the ascending discovery is NOT the
reverse of the descending discovery. -/
theorem update_orders_not_always_reverse :
    get_ordered_update_columns ["Update 1", "Update 1 (1)"] false
      ≠ (get_ordered_update_columns ["Update 1", "Update 1 (1)"] true).reverse
    ∧ get_ordered_update_columns ["Update 1", "Update 1 (1)"] true
        = ["Update 1", "Update 1 (1)"]
    ∧ get_ordered_update_columns ["Update 1", "Update 1 (1)"] false
        = ["Update 1", "Update 1 (1)"] := by
  refine ⟨?_, ?_, ?_⟩ <;> decide

/-- C5 (amended): the descending and ascending runs of the discovery contain
the same set of columns (those whose trimmed name case-insensitively starts
with `"update"` and holds a digit run, keyed by the last digit run), and they
are exact reverses of each other whenever the numeric keys are pairwise
distinct; with tied keys the stable sort leaves both runs in original order,
so only the reversal part fails.  (In `main`, src/app.py:299-300, the
ascending list is literally the reversal of the descending list.) -/
theorem update_orders_same_set_and_reverse (cols : List String) :
    (∀ c, c ∈ get_ordered_update_columns cols true ↔
        c ∈ get_ordered_update_columns cols false)
    ∧ ((foundPairs cols).Pairwise (fun a b => a.1 ≠ b.1) →
        get_ordered_update_columns cols false
          = (get_ordered_update_columns cols true).reverse) := by
  haveI ht1 : IsTotal (Nat × String) (fun a b => b.1 ≤ a.1) :=
    ⟨fun a b => (Nat.le_total b.1 a.1)⟩
  haveI ht2 : IsTotal (Nat × String) (fun a b => a.1 ≤ b.1) :=
    ⟨fun a b => (Nat.le_total a.1 b.1)⟩
  haveI htr1 : IsTrans (Nat × String) (fun a b => b.1 ≤ a.1) :=
    ⟨fun _ _ _ hab hbc => Nat.le_trans hbc hab⟩
  haveI htr2 : IsTrans (Nat × String) (fun a b => a.1 ≤ b.1) :=
    ⟨fun _ _ _ hab hbc => Nat.le_trans hab hbc⟩
  by_cases hF : (foundPairs cols).isEmpty
  · simp [get_ordered_update_columns, hF]
  · have e1 : get_ordered_update_columns cols true
        = (List.insertionSort (fun a b : Nat × String => b.1 ≤ a.1)
            (foundPairs cols)).map Prod.snd := by
      simp [get_ordered_update_columns, hF]
    have e2 : get_ordered_update_columns cols false
        = (List.insertionSort (fun a b : Nat × String => a.1 ≤ b.1)
            (foundPairs cols)).map Prod.snd := by
      simp [get_ordered_update_columns, hF]
    constructor
    · intro c
      rw [e1, e2]
      have p1 := (List.perm_insertionSort
        (fun a b : Nat × String => b.1 ≤ a.1) (foundPairs cols)).map Prod.snd
      have p2 := (List.perm_insertionSort
        (fun a b : Nat × String => a.1 ≤ b.1) (foundPairs cols)).map Prod.snd
      rw [p1.mem_iff, p2.mem_iff]
    · intro hdist
      rw [e1, e2]
      have hpermA : (List.insertionSort (fun a b : Nat × String => a.1 ≤ b.1)
          (foundPairs cols)).Perm (foundPairs cols) := List.perm_insertionSort _ _
      have hpermD : (List.insertionSort (fun a b : Nat × String => b.1 ≤ a.1)
          (foundPairs cols)).Perm (foundPairs cols) := List.perm_insertionSort _ _
      have hFD : (foundPairs cols).Perm
          (List.insertionSort (fun a b : Nat × String => b.1 ≤ a.1)
              (foundPairs cols)).reverse :=
        ((List.reverse_perm _).trans hpermD).symm
      have hperm : (List.insertionSort (fun a b : Nat × String => a.1 ≤ b.1)
            (foundPairs cols)).Perm
          (List.insertionSort (fun a b : Nat × String => b.1 ≤ a.1)
              (foundPairs cols)).reverse :=
        hpermA.trans hFD
      have hsortA : (List.insertionSort (fun a b : Nat × String => a.1 ≤ b.1)
            (foundPairs cols)).Pairwise (fun a b : Nat × String => a.1 ≤ b.1) :=
        List.sorted_insertionSort _ _
      have hsortDrev : ((List.insertionSort
            (fun a b : Nat × String => b.1 ≤ a.1)
            (foundPairs cols)).reverse).Pairwise
            (fun a b : Nat × String => a.1 ≤ b.1) := by
        rw [List.pairwise_reverse]
        exact List.sorted_insertionSort _ _
      have hneA := (hpermA.pairwise_iff (fun h => Ne.symm h)).mpr hdist
      have hneDrev := (hFD.pairwise_iff (fun h => Ne.symm h)).mp hdist
      have hltA := (hsortA.and hneA).imp
        (fun hab => Nat.lt_of_le_of_ne hab.1 hab.2)
      have hltDrev := (hsortDrev.and hneDrev).imp
        (fun hab => Nat.lt_of_le_of_ne hab.1 hab.2)
      haveI : IsAntisymm (Nat × String) (fun a b => a.1 < b.1) :=
        ⟨fun a b h1 h2 => absurd (Nat.lt_trans h1 h2) (Nat.lt_irrefl _)⟩
      have key := List.eq_of_perm_of_sorted hperm hltA hltDrev
      rw [key, List.map_reverse]

/-- Witness for C5 at a concrete column list with distinct keys `2` and `10`:
the ascending run is the reverse of the descending run. -/
theorem update_orders_same_set_and_reverse_witness :
    get_ordered_update_columns ["Update 2", "Update 10"] false
      = (get_ordered_update_columns ["Update 2", "Update 10"] true).reverse :=
  (update_orders_same_set_and_reverse ["Update 2", "Update 10"]).2 (by decide)

/-- Every member is bounded by `foldr Nat.max 0`. -/
theorem le_foldr_max (l : List Nat) : ∀ n ∈ l, n ≤ l.foldr Nat.max 0 := by
  induction l with
  | nil => intro n hn; cases hn
  | cons m l ih =>
    intro n hn
    rcases List.mem_cons.mp hn with rfl | hn
    · exact Nat.le_max_left _ _
    · exact Nat.le_trans (ih n hn) (Nat.le_max_right _ _)

/-- `Nat.max` unfolded, for `split_ifs`-and-`omega` reasoning. -/
theorem natMax_def (a b : Nat) : Nat.max a b = if a ≤ b then b else a :=
  Nat.max_def

/-- `foldr Nat.max 0` is zero or attained by a member. -/
theorem foldr_max_mem (l : List Nat) :
    l.foldr Nat.max 0 = 0 ∨ l.foldr Nat.max 0 ∈ l := by
  induction l with
  | nil => exact Or.inl rfl
  | cons m l ih =>
    rw [List.foldr_cons]
    rcases Nat.le_total m (l.foldr Nat.max 0) with hle | hle
    · have hmax : Nat.max m (l.foldr Nat.max 0) = l.foldr Nat.max 0 := by
        rw [natMax_def, if_pos hle]
      rw [hmax]
      rcases ih with h0 | hmem
      · exact Or.inl h0
      · exact Or.inr (List.mem_cons_of_mem _ hmem)
    · have hmax : Nat.max m (l.foldr Nat.max 0) = m := by
        rw [natMax_def]
        split <;> omega
      rw [hmax]
      exact Or.inr (List.mem_cons_self _ _)

/-- The loop accumulates exactly `Nat.max` of the start value and the maximum
filled index. -/
theorem updateLevelFold_eq (row : String → Option String) :
    ∀ (cols : List String) (a : Nat),
      updateLevelFold row a cols
        = Nat.max a ((filledIndices row cols).foldr Nat.max 0)
  | [], a => by simp [updateLevelFold, filledIndices]
  | col :: rest, a => by
    simp only [updateLevelFold]
    rw [updateLevelFold_eq row rest]
    by_cases hf : cellFilled row col = true
    · cases hn : lastDigitRun col with
      | none =>
        simp only [if_pos hf, hn, filledIndices, List.filter_cons, if_pos hf,
          List.filterMap_cons, hn]
      | some n =>
        simp only [if_pos hf, hn, filledIndices, List.filter_cons, if_pos hf,
          List.filterMap_cons, hn, List.foldr_cons]
        simp only [natMax_def]
        split_ifs <;> omega
    · simp only [if_neg hf, filledIndices, List.filter_cons,
        if_neg hf]

/-- C7: for every record and update-column list, the derived update level is
a natural number (hence non-negative), equal to the maximum numeric index
(last digit run of the column name) among columns with non-blank cell
content — an upper bound that is attained unless the filled set is empty, in
which case it is 0 — and the computation is a total function (never raises). -/
theorem compute_update_level_correct (row : String → Option String)
    (cols : List String) :
    compute_update_level row cols = (filledIndices row cols).foldr Nat.max 0
    ∧ (∀ n ∈ filledIndices row cols, n ≤ compute_update_level row cols)
    ∧ (compute_update_level row cols = 0
        ∨ compute_update_level row cols ∈ filledIndices row cols)
    ∧ (filledIndices row cols = [] → compute_update_level row cols = 0) := by
  have he : compute_update_level row cols
      = (filledIndices row cols).foldr Nat.max 0 := by
    rw [compute_update_level, updateLevelFold_eq row cols 0, natMax_def]
    split <;> omega
  refine ⟨he, ?_, ?_, ?_⟩
  · intro n hn
    rw [he]
    exact le_foldr_max _ n hn
  · rw [he]
    exact foldr_max_mem _
  · intro h0
    rw [he, h0]
    rfl

/-- Witness for C7 at concrete records: a filled `"Update 3"` cell bounds the
level from below by 3, and a record with no filled update cell has level 0. -/
theorem compute_update_level_correct_witness :
    (3 ≤ compute_update_level
        (fun c => if c = "Update 3" then some "x" else none) ["Update 3"])
    ∧ compute_update_level (fun _ => none) ["Update 1"] = 0 :=
  ⟨(compute_update_level_correct
      (fun c => if c = "Update 3" then some "x" else none) ["Update 3"]).2.1
        3 (by decide),
   (compute_update_level_correct (fun _ => none) ["Update 1"]).2.2.2
     (by decide)⟩

/-- A found header index points at a header row and nothing above it is one. -/
theorem findHeaderRow_spec :
    ∀ (t : List (List (Option String))) (i : Nat), findHeaderRow t = some i →
      isHeaderRow ((t.drop i).headD []) = true
      ∧ ∀ j, j < i → isHeaderRow ((t.drop j).headD []) = false
  | [], i, h => by simp [findHeaderRow] at h
  | r :: rs, i, h => by
    by_cases hr : isHeaderRow r = true
    · simp only [findHeaderRow, if_pos hr, Option.some.injEq] at h
      subst h
      exact ⟨by simpa using hr, fun j hj => absurd hj (Nat.not_lt_zero j)⟩
    · simp only [findHeaderRow, if_neg hr] at h
      obtain ⟨i0, hi0, hplus⟩ : ∃ i0, findHeaderRow rs = some i0 ∧ i0 + 1 = i := by
        cases hfr : findHeaderRow rs with
        | none => rw [hfr] at h; exact absurd h (by simp)
        | some k => rw [hfr] at h; simp at h; exact ⟨k, rfl, h⟩
      obtain ⟨h1, h2⟩ := findHeaderRow_spec rs i0 hi0
      subst hplus
      constructor
      · simpa using h1
      · intro j hj
        cases j with
        | zero => simpa using hr
        | succ j0 => simpa using h2 j0 (Nat.lt_of_succ_lt_succ hj)

/-- When no header index is found, no row passes the header test. -/
theorem findHeaderRow_none :
    ∀ t, findHeaderRow t = none → ∀ r ∈ t, isHeaderRow r = false
  | [], _, r, hr => absurd hr (List.not_mem_nil r)
  | r :: rs, h, x, hx => by
    by_cases hr : isHeaderRow r = true
    · simp [findHeaderRow, hr] at h
    · simp only [findHeaderRow, if_neg hr] at h
      rcases List.mem_cons.mp hx with rfl | hx2
      · simpa using hr
      · cases hfr : findHeaderRow rs with
        | none => exact findHeaderRow_none rs hfr x hx2
        | some k => rw [hfr] at h; simp at h

/-- C1: the loader scans rows top-to-bottom and selects as header the first
row whose first cell, stringified and trimmed, equals the literal `"No"`
(case-sensitive: the test is string equality with that exact literal); when
such a row exists the load succeeds and its column list is the deduplicated
header cells; when no such row exists the load fails (`none`) and yields no
record sequence — no default header is invented. -/
theorem header_discovery_correct (t : List (List (Option String))) :
    (∀ i, findHeaderRow t = some i →
        isHeaderRow ((t.drop i).headD []) = true
        ∧ (∀ j, j < i → isHeaderRow ((t.drop j).headD []) = false)
        ∧ ∃ lt, load_raw_data t = some lt
            ∧ lt.cols = dedupHeaders (((t.drop i).headD []).map pyStr))
    ∧ (findHeaderRow t = none →
        (∀ r ∈ t, isHeaderRow r = false) ∧ load_raw_data t = none) := by
  constructor
  · intro i hi
    obtain ⟨h1, h2⟩ := findHeaderRow_spec t i hi
    refine ⟨h1, h2, ?_⟩
    exact ⟨⟨dedupHeaders (headerCellsAt t i),
        dataRowsFrom t i (dedupHeaders (headerCellsAt t i))⟩,
      by simp only [load_raw_data, hi], rfl⟩
  · intro hn
    exact ⟨findHeaderRow_none t hn, by simp only [load_raw_data, hn]⟩

/-- Witness for C1: the spec's example table selects row 1 (`["No","Province",
"Regency"]`) as header, discarding row 0 as pre-header noise, and a table
whose only candidate is the lowercased `"no"` fails to load. -/
theorem header_discovery_correct_witness :
    (isHeaderRow (([[some "Contoh", some "x", some "y"],
          [some "No", some "Province", some "Regency"]].drop 1).headD [])
        = true
      ∧ (∀ j, j < 1 →
          isHeaderRow (([[some "Contoh", some "x", some "y"],
            [some "No", some "Province", some "Regency"]].drop j).headD [])
            = false)
      ∧ ∃ lt, load_raw_data [[some "Contoh", some "x", some "y"],
            [some "No", some "Province", some "Regency"]] = some lt
          ∧ lt.cols = dedupHeaders ((([[some "Contoh", some "x", some "y"],
              [some "No", some "Province", some "Regency"]].drop 1).headD
                []).map pyStr))
    ∧ ((∀ r ∈ [[some "no"]], isHeaderRow r = false)
      ∧ load_raw_data [[some "no"]] = none) :=
  ⟨(header_discovery_correct [[some "Contoh", some "x", some "y"],
      [some "No", some "Province", some "Regency"]]).1 1 (by decide),
   (header_discovery_correct [[some "no"]]).2 (by decide)⟩

/-- Evaluation of the spec's dot-notation example cell. -/
theorem parse_ll_dot_example :
    parse_ll (some "-6.2, 106.8")
      = (some ((-31 : ℚ)/5), some ((534 : ℚ)/5)) := by
  have h : parse_ll (some "-6.2, 106.8")
      = (some (-((digitsToNat ['6'] : ℚ)
            + (digitsToNat ['2'] : ℚ) / ((10 : ℚ) ^ (1 : Nat)))),
         some ((digitsToNat ['1', '0', '6'] : ℚ)
            + (digitsToNat ['8'] : ℚ) / ((10 : ℚ) ^ (1 : Nat)))) := rfl
  have e1 : digitsToNat ['6'] = 6 := rfl
  have e2 : digitsToNat ['2'] = 2 := rfl
  have e3 : digitsToNat ['1', '0', '6'] = 106 := rfl
  have e4 : digitsToNat ['8'] = 8 := rfl
  rw [h, e1, e2, e3, e4]
  norm_num

/-- C4 (amended): when no distinct latitude/longitude column pair exists but a
single combined column (name containing both `"lat"` and `"long"`) does, each
record's `(lat, lon)` comes from `parse_ll` on its cell: split on runs of
whitespace/comma/semicolon and parse the first two tokens as decimals, so the
dot-notation cell `"-6.2, 106.8"` yields `lat = -6.2, lon = 106.8`; the
token-level `","`→`"."` substitution happens before parsing but is vacuous
(split tokens cannot contain a comma), so comma-as-decimal-point cells are
mis-tokenized rather than tolerated; a failing token yields an absent pair
for that record only, never a pipeline failure (the derivation is total). -/
theorem combined_latlon_fallback (cols : List String)
    (rows : List (List (Option String))) (cb : String)
    (h1 : findLatCol cols = none ∨ findLonCol cols = none)
    (h2 : findComboCol cols = some cb) :
    add_lat_lon cols rows
      = some (rows.map (fun r => parse_ll (cellAt cols r cb)))
    ∧ parse_ll (some "-6.2, 106.8") = (some ((-31 : ℚ)/5), some ((534 : ℚ)/5))
    ∧ (∀ v, parse_ll v = (none, none)
        ∨ ∃ a b, parse_ll v = (some a, some b)) := by
  refine ⟨?_, parse_ll_dot_example, ?_⟩
  · rcases h1 with h | h
    · cases hlon : findLonCol cols <;>
        simp only [add_lat_lon, h, hlon, h2]
    · cases hlat : findLatCol cols <;>
        simp only [add_lat_lon, h, hlat, h2]
  · intro v
    match v with
    | none => exact Or.inl rfl
    | some v0 =>
      simp only [parse_ll]
      split
      · exact Or.inl rfl
      · split
        · split
          · right
            exact ⟨_, _, rfl⟩
          · exact Or.inl rfl
        · exact Or.inl rfl

/-- Witness for C4 at the spec's own example: a table whose only coordinate
column is `"Lat Long"` derives every record's pair through `parse_ll`. -/
theorem combined_latlon_fallback_witness :
    add_lat_lon ["Lat Long"] [[some "-6.2, 106.8"]]
      = some ([[some "-6.2, 106.8"]].map
          (fun r => parse_ll (cellAt ["Lat Long"] r "Lat Long"))) :=
  (combined_latlon_fallback ["Lat Long"] [[some "-6.2, 106.8"]] "Lat Long"
    (Or.inl (by decide)) (by decide)).1

/-- C4 counterexample: commas are split delimiters, so a cell that uses the
comma as a decimal point is tokenized at the commas and the first two tokens
are `"-6"` and `"2"`: the record gets `(lat, lon) = (-6, 2)`, not the
intended `(-6.2, 106.8)`. -/
theorem comma_decimal_not_tolerated :
    parse_ll (some "-6,2 106,8") = (some ((-6 : ℚ)), some ((2 : ℚ)))
    ∧ parse_ll (some "-6,2 106,8")
        ≠ (some ((-31 : ℚ)/5), some ((534 : ℚ)/5)) := by
  have h : parse_ll (some "-6,2 106,8")
      = (some (-(digitsToNat ['6'] : ℚ)), some ((digitsToNat ['2'] : ℚ))) := rfl
  have e1 : digitsToNat ['6'] = 6 := rfl
  have e2 : digitsToNat ['2'] = 2 := rfl
  rw [h, e1, e2]
  constructor
  · norm_num
  · simp only [ne_eq, Prod.mk.injEq, Option.some.injEq, not_and]
    intro h1
    norm_num at h1

/-- A successfully normalized phone is never the empty string (so Python
truthiness on it reduces to `is not None`). -/
theorem normalize_phone_ne_empty (p : Option String) (r : String)
    (h : normalize_phone p = some r) : r ≠ "" := by
  match p with
  | none => exact absurd h (by simp [normalize_phone])
  | some s =>
    simp only [normalize_phone] at h
    by_cases hc : s = "" ∨ pyLower s = "nan"
    · rw [if_pos hc] at h
      exact absurd h (by simp)
    · rw [if_neg hc] at h
      cases hd : digitsOf s with
      | nil =>
        rw [hd, if_pos rfl] at h
        exact absurd h (by simp)
      | cons d tail =>
        rw [hd, if_neg (List.cons_ne_nil d tail)] at h
        simp only [List.headD_cons, List.tail_cons] at h
        by_cases hd0 : d = '0'
        · rw [if_pos hd0] at h
          have hr : (⟨'6' :: '2' :: tail⟩ : String) = r := by simpa using h
          subst hr
          intro hcE
          have hdata := congrArg String.data hcE
          simp at hdata
        · rw [if_neg hd0] at h
          have hr : (⟨d :: tail⟩ : String) = r := by simpa using h
          subst hr
          intro hcE
          have hdata := congrArg String.data hcE
          simp at hdata

/-- C6 counterexample: a record whose coordinator phone holds no digit gets NO
per-record chat link at all — not a numberless one — because the card renders
the link only when normalization succeeds. -/
theorem card_link_omitted_on_bad_phone :
    normalize_phone (some "-") = none
    ∧ card_wa_link (some "-") "Halo , saya melihat update posko X." = none :=
  ⟨rfl, rfl⟩

/-- C6 (amended): the per-record card link targets the coordinator's phone
with the percent-encoded message as query payload exactly when the phone
normalizes, and is omitted entirely otherwise; the numberless contact-picker
deep link exists only for the combined multi-record message, where it is
always produced (regardless of contact data), so combined composition never
fails. -/
theorem wa_links_correct (wa_raw : Option String) (msg body : String) :
    (∀ n, normalize_phone wa_raw = some n →
        card_wa_link wa_raw msg
          = some ("https://wa.me/" ++ n ++ "?text=" ++ quote msg))
    ∧ (normalize_phone wa_raw = none → card_wa_link wa_raw msg = none)
    ∧ wa_link_multi body = "https://wa.me/?text=" ++ quote body := by
  refine ⟨?_, ?_, rfl⟩
  · intro n hn
    simp only [card_wa_link, hn]
    rw [if_pos (normalize_phone_ne_empty wa_raw n hn)]
  · intro hn
    simp only [card_wa_link, hn]

/-- Witness for C6 at a concrete record: phone `"0812"` normalizes to
`"62812"` and the card link targets it. -/
theorem wa_links_correct_witness :
    card_wa_link (some "0812") "hi"
      = some ("https://wa.me/" ++ "62812" ++ "?text=" ++ quote "hi") :=
  (wa_links_correct (some "0812") "hi" "").1 "62812" (by decide)

/-- A character is determined by its code point. -/
theorem char_toNat_inj (a b : Char) (h : a.toNat = b.toNat) : a = b := by
  apply Char.ext
  simp only [Char.toNat] at h
  exact UInt32.eq_of_toBitVec_eq (BitVec.eq_of_toNat_eq h)

/-- Lexicographic `<` is asymmetric. -/
theorem charListLT_asymm :
    ∀ as bs, charListLT as bs = true → charListLT bs as = false
  | [], [], h => by simp [charListLT] at h
  | [], _ :: _, _ => rfl
  | _ :: _, [], h => by simp [charListLT] at h
  | a :: as, b :: bs, h => by
    simp only [charListLT] at h ⊢
    by_cases h1 : a.toNat < b.toNat
    · rw [if_neg (by omega : ¬ b.toNat < a.toNat), if_pos h1]
    · rw [if_neg h1] at h
      by_cases h2 : b.toNat < a.toNat
      · rw [if_pos h2] at h
        exact absurd h (by simp)
      · rw [if_neg h2] at h
        rw [if_neg h2, if_neg h1]
        exact charListLT_asymm as bs h

/-- Lexicographic `<` is transitive. -/
theorem charListLT_trans :
    ∀ as bs cs, charListLT as bs = true → charListLT bs cs = true →
      charListLT as cs = true
  | [], [], _, hab, _ => by simp [charListLT] at hab
  | [], _ :: _, [], _, hbc => by simp [charListLT] at hbc
  | [], _ :: _, _ :: _, _, _ => rfl
  | _ :: _, [], _, hab, _ => by simp [charListLT] at hab
  | _ :: _, _ :: _, [], _, hbc => by simp [charListLT] at hbc
  | a :: as, b :: bs, c :: cs, hab, hbc => by
    simp only [charListLT] at hab hbc ⊢
    by_cases h1 : a.toNat < b.toNat
    · by_cases h2 : b.toNat < c.toNat
      · rw [if_pos (by omega : a.toNat < c.toNat)]
      · rw [if_neg h2] at hbc
        by_cases h3 : c.toNat < b.toNat
        · rw [if_pos h3] at hbc
          exact absurd hbc (by simp)
        · rw [if_pos (by omega : a.toNat < c.toNat)]
    · rw [if_neg h1] at hab
      by_cases h4 : b.toNat < a.toNat
      · rw [if_pos h4] at hab
        exact absurd hab (by simp)
      · rw [if_neg h4] at hab
        by_cases h2 : b.toNat < c.toNat
        · rw [if_pos (by omega : a.toNat < c.toNat)]
        · rw [if_neg h2] at hbc
          by_cases h3 : c.toNat < b.toNat
          · rw [if_pos h3] at hbc
            exact absurd hbc (by simp)
          · rw [if_neg h3] at hbc
            rw [if_neg (by omega : ¬ a.toNat < c.toNat),
              if_neg (by omega : ¬ c.toNat < a.toNat)]
            exact charListLT_trans as bs cs hab hbc

/-- Two lists neither of which is lexicographically below the other are
equal. -/
theorem charListLT_connected :
    ∀ as bs, charListLT as bs = false → charListLT bs as = false → as = bs
  | [], [], _, _ => rfl
  | [], _ :: _, h, _ => by simp [charListLT] at h
  | _ :: _, [], _, h => by simp [charListLT] at h
  | a :: as, b :: bs, h, h2 => by
    simp only [charListLT] at h h2
    by_cases h1 : a.toNat < b.toNat
    · rw [if_pos h1] at h
      exact absurd h (by simp)
    · by_cases h3 : b.toNat < a.toNat
      · rw [if_pos h3] at h2
        exact absurd h2 (by simp)
      · rw [if_neg h1, if_neg h3] at h
        rw [if_neg h3, if_neg h1] at h2
        have hab : a = b := char_toNat_inj a b (by omega)
        subst hab
        rw [charListLT_connected as bs h h2]

/-- `pyStrLE` is total. -/
theorem pyStrLE_total (x y : String) :
    pyStrLE x y = true ∨ pyStrLE y x = true := by
  unfold pyStrLE
  by_cases h : charListLT y.data x.data = true
  · right
    rw [charListLT_asymm _ _ h]
    rfl
  · left
    rw [Bool.not_eq_true] at h
    rw [h]
    rfl

/-- `pyStrLE` is transitive. -/
theorem pyStrLE_trans (x y z : String) (hxy : pyStrLE x y = true)
    (hyz : pyStrLE y z = true) : pyStrLE x z = true := by
  unfold pyStrLE at hxy hyz ⊢
  rw [Bool.not_eq_eq_eq_not, Bool.not_true] at hxy hyz ⊢
  by_cases hzy : charListLT z.data y.data = true
  · exact absurd hzy (by rw [hyz]; simp)
  · rw [Bool.not_eq_true] at hzy
    by_cases hyz2 : charListLT y.data z.data = true
    · by_contra hzx
      rw [Bool.not_eq_false] at hzx
      have := charListLT_trans _ _ _ hyz2 hzx
      rw [hxy] at this
      exact Bool.noConfusion this
    · rw [Bool.not_eq_true] at hyz2
      have heq := charListLT_connected _ _ hzy hyz2
      by_contra hzx
      rw [Bool.not_eq_false] at hzx
      rw [heq] at hzx
      rw [hxy] at hzx
      exact Bool.noConfusion hzx

/-- The `"No"`-descending comparator is total. -/
theorem noDescLE_total (cols : List String) (a b : Nat × List (Option String)) :
    noDescLE cols a b = true ∨ noDescLE cols b a = true := by
  unfold noDescLE
  cases noCell cols a <;> cases noCell cols b <;> simp
  exact pyStrLE_total _ _

/-- The `"No"`-descending comparator is transitive. -/
theorem noDescLE_trans (cols : List String)
    (a b c : Nat × List (Option String)) (hab : noDescLE cols a b = true)
    (hbc : noDescLE cols b c = true) : noDescLE cols a c = true := by
  unfold noDescLE at hab hbc ⊢
  cases ha : noCell cols a <;> cases hb : noCell cols b <;>
    cases hc : noCell cols c <;> simp_all
  exact pyStrLE_trans _ _ _ hbc hab

/-- C8 counterexample: a table whose user-entered `"No"` values are out of
order with the row indices.  The newest-entry sort keeps the row with the
larger `"No"` (`"5"`, `row_index` 0) FIRST, whereas ordering by `row_index`
descending would put `row_index` 1 first: the code sorts by the `"No"`
display column, not by `row_index`. -/
theorem newest_entry_uses_No_column :
    sortNewestEntry ⟨["No"], [(0, [some "5"]), (1, [some "3"])]⟩
      = [(0, [some "5"]), (1, [some "3"])]
    ∧ sortNewestEntry ⟨["No"], [(0, [some "5"]), (1, [some "3"])]⟩
      ≠ List.insertionSort (fun a b => rowIdxDescLE a b = true)
          [(0, [some "5"]), (1, [some "3"])] := by
  constructor
  · decide
  · decide

/-- C8 (amended): under the "newest entry" policy the code sorts by the
user-entered `"No"` display column, descending with absents last, whenever a
`"No"` column exists; only when no `"No"` column exists does it fall back to
`row_index` descending.  (The fallback is reachable: the header test trims
the first cell while the column keeps the untrimmed name, so a `" No"` header
cell loads without a `"No"` column — see the reachability theorem below.)
In both cases the result is a permutation of the rows, pairwise ordered by
the active comparator. -/
theorem sortNewestEntry_correct (t : LoadedTable) :
    (sortNewestEntry t).Perm t.rows
    ∧ (t.cols.contains "No" = true →
        (sortNewestEntry t).Pairwise (fun a b => noDescLE t.cols a b = true))
    ∧ (t.cols.contains "No" = false →
        (sortNewestEntry t).Pairwise (fun a b => rowIdxDescLE a b = true)) := by
  haveI htot : IsTotal (Nat × List (Option String))
      (fun a b => noDescLE t.cols a b = true) := ⟨noDescLE_total t.cols⟩
  haveI htr : IsTrans (Nat × List (Option String))
      (fun a b => noDescLE t.cols a b = true) := ⟨noDescLE_trans t.cols⟩
  haveI htot2 : IsTotal (Nat × List (Option String))
      (fun a b => rowIdxDescLE a b = true) := ⟨fun a b => by
    simp only [rowIdxDescLE, decide_eq_true_eq]
    omega⟩
  haveI htr2 : IsTrans (Nat × List (Option String))
      (fun a b => rowIdxDescLE a b = true) := ⟨fun a b c hab hbc => by
    simp only [rowIdxDescLE, decide_eq_true_eq] at hab hbc ⊢
    omega⟩
  refine ⟨?_, ?_, ?_⟩
  · unfold sortNewestEntry
    split
    · exact List.perm_insertionSort _ _
    · exact List.perm_insertionSort _ _
  · intro hNo
    unfold sortNewestEntry
    rw [if_pos hNo]
    exact List.sorted_insertionSort _ _
  · intro hNo
    unfold sortNewestEntry
    rw [if_neg (by rw [hNo]; exact Bool.false_ne_true)]
    exact List.sorted_insertionSort _ _

/-- Witness for C8 at the counterexample table: the sorted output is a
permutation of the input and pairwise `"No"`-descending. -/
theorem sortNewestEntry_correct_witness :
    (sortNewestEntry ⟨["No"], [(0, [some "5"]), (1, [some "3"])]⟩).Pairwise
      (fun a b => noDescLE ["No"] a b = true) :=
  (sortNewestEntry_correct ⟨["No"], [(0, [some "5"]), (1, [some "3"])]⟩).2.1
    (by decide)

/-- The `row_index` fallback of the newest-entry sort is reachable from a
successful load: header discovery trims the first cell (src/app.py:59) but
the column keeps the untrimmed `str(h)` (src/app.py:74), so a table whose
header cell is `" No"` loads successfully yet has no column named `"No"`. -/
theorem no_column_fallback_reachable :
    load_raw_data [[some " No"]] = some ⟨[" No"], []⟩
    ∧ ([" No"] : List String).contains "No" = false := by
  constructor
  · decide
  · decide

/-- An in-range `getD` against a list without `""` is a nonempty member. -/
theorem getD_mem_of_lt (cols : List String) (i : Nat) (hi : i < cols.length) :
    cols.getD i "" ∈ cols := by
  rw [List.getD_eq_getElem?_getD, List.getElem?_eq_getElem hi]
  exact List.getElem_mem hi

/-- C9: the coordinator WA phone columns are identified purely by position —
the korlap phone is read from the column immediately BEFORE the korlap name
column, the pusat phone from the column immediately AFTER the pusat name
column — and when the respective name column is absent or sits at the table
edge, the raw phone degrades to the empty string, whose normalization is
absent: no error, no phone.  (The hypothesis that no column is named `""`
holds for every loaded table: every header cell is `str(...)` of a CSV value,
which is never empty.) -/
theorem wa_columns_positional (cols : List String)
    (row : String → Option String) (hne : "" ∉ cols) :
    (∀ idx, cols.findIdx? (· == korlapNameCol) = some idx → 1 ≤ idx →
        wa_korlap_col cols = some (cols.getD (idx - 1) "")
        ∧ waRawFrom row (wa_korlap_col cols) = row (cols.getD (idx - 1) ""))
    ∧ (cols.findIdx? (· == korlapNameCol) = none →
        waRawFrom row (wa_korlap_col cols) = some ""
        ∧ normalize_phone (waRawFrom row (wa_korlap_col cols)) = none)
    ∧ (cols.findIdx? (· == korlapNameCol) = some 0 →
        waRawFrom row (wa_korlap_col cols) = some ""
        ∧ normalize_phone (waRawFrom row (wa_korlap_col cols)) = none)
    ∧ (∀ idx, cols.findIdx? (· == pusatNameCol) = some idx →
        idx + 1 < cols.length →
        wa_pusat_col cols = some (cols.getD (idx + 1) "")
        ∧ waRawFrom row (wa_pusat_col cols) = row (cols.getD (idx + 1) ""))
    ∧ (cols.findIdx? (· == pusatNameCol) = none →
        waRawFrom row (wa_pusat_col cols) = some ""
        ∧ normalize_phone (waRawFrom row (wa_pusat_col cols)) = none)
    ∧ (∀ idx, cols.findIdx? (· == pusatNameCol) = some idx →
        ¬ idx + 1 < cols.length →
        waRawFrom row (wa_pusat_col cols) = some ""
        ∧ normalize_phone (waRawFrom row (wa_pusat_col cols)) = none) := by
  refine ⟨?_, ?_, ?_, ?_, ?_, ?_⟩
  · intro idx hidx h1
    have hlen : idx < cols.length := by
      obtain ⟨h, -⟩ := List.findIdx?_eq_some_iff_getElem.mp hidx
      exact h
    have hcell : cols.getD (idx - 1) "" ≠ "" := by
      intro hc
      exact hne (hc ▸ getD_mem_of_lt cols (idx - 1) (by omega))
    have hcol : wa_korlap_col cols = some (cols.getD (idx - 1) "") := by
      simp only [wa_korlap_col, hidx, if_pos h1]
    refine ⟨hcol, ?_⟩
    rw [hcol]
    simp only [waRawFrom, if_pos hcell]
  · intro hidx
    have hraw : waRawFrom row (wa_korlap_col cols) = some "" := by
      simp only [wa_korlap_col, hidx, waRawFrom]
    exact ⟨hraw, by rw [hraw]; rfl⟩
  · intro hidx
    have hraw : waRawFrom row (wa_korlap_col cols) = some "" := by
      simp only [wa_korlap_col, hidx, waRawFrom]
      rfl
    exact ⟨hraw, by rw [hraw]; rfl⟩
  · intro idx hidx hlt
    have hcell : cols.getD (idx + 1) "" ≠ "" := by
      intro hc
      exact hne (hc ▸ getD_mem_of_lt cols (idx + 1) hlt)
    have hcol : wa_pusat_col cols = some (cols.getD (idx + 1) "") := by
      simp only [wa_pusat_col, hidx, if_pos hlt]
    refine ⟨hcol, ?_⟩
    rw [hcol]
    simp only [waRawFrom, if_pos hcell]
  · intro hidx
    have hraw : waRawFrom row (wa_pusat_col cols) = some "" := by
      simp only [wa_pusat_col, hidx, waRawFrom]
    exact ⟨hraw, by rw [hraw]; rfl⟩
  · intro idx hidx hlt
    have hraw : waRawFrom row (wa_pusat_col cols) = some "" := by
      simp only [wa_pusat_col, hidx, if_neg hlt, waRawFrom]
    exact ⟨hraw, by rw [hraw]; rfl⟩

/-- Witness for C9 at a concrete column list: the korlap phone is read from
`"WA Lap"`, the column immediately before the korlap name column. -/
theorem wa_columns_positional_witness :
    wa_korlap_col ["WA Lap", korlapNameCol, pusatNameCol, "WA Pusat"]
      = some "WA Lap"
    ∧ waRawFrom (fun c => if c = "WA Lap" then some "0811" else none)
        (wa_korlap_col ["WA Lap", korlapNameCol, pusatNameCol, "WA Pusat"])
      = some "0811" := by
  have h := (wa_columns_positional
    ["WA Lap", korlapNameCol, pusatNameCol, "WA Pusat"]
    (fun c => if c = "WA Lap" then some "0811" else none)
    (by decide)).1 1 (by decide) (by decide)
  exact ⟨h.1, h.2.trans (by decide)⟩

/-- C10: a cell whose trimmed text is `"nan"`, `"none"` or `"-"`
(case-insensitive) is blanked by `clean_optional`, the cleaning step of the
display/composer, and therefore omitted from composed timelines; but
`compute_last_update` and `compute_update_level` test non-blankness with
`str(val).strip()` only, so such a cell counts as content there.
Consequently a record whose only update cell is `"-"` has last-update text
`"Update 1: -"` and update level 1, while its composed message holds no
timeline entry for `"Update 1"` — only the no-written-update marker. -/
theorem placeholder_cells_inconsistent :
    (∀ v, pyLower (pyStrip v) = "nan" ∨ pyLower (pyStrip v) = "none"
        ∨ pyLower (pyStrip v) = "-" →
      clean_optional (some v) = "")
    ∧ compute_last_update dashRow ["Update 1"] = "Update 1: -"
    ∧ compute_update_level dashRow ["Update 1"] = 1
    ∧ pyContains (build_whatsapp_body_for_row dashRow ["Update 1"] none)
        "_Belum ada update tertulis._" = true
    ∧ pyContains (build_whatsapp_body_for_row dashRow ["Update 1"] none)
        "*Update 1*" = false := by
  refine ⟨?_, ?_, ?_, ?_, ?_⟩
  · intro v hv
    simp only [clean_optional]
    split
    · rfl
    · rfl
  · decide
  · decide
  · decide
  · decide

/-- Witness for C10: a cell reading `" NaN "` is blanked by the cleaning
step. -/
theorem placeholder_cells_inconsistent_witness :
    clean_optional (some " NaN ") = "" :=
  placeholder_cells_inconsistent.1 " NaN " (Or.inl (by decide))

end Diary

